import Mathlib

/-!
Verification of the gorillaz `mux` broadcaster core.

The configuration and option types are embedded from `src/mux/common.go`.
The broadcaster state machine (dispatcher loop, submit, register, close)
is not present under `src/`; it is modelled from the specification
(`spec.md` §3–§5), as marked on each definition.

Go's mutating option functions (`func(*BroadcasterConfig)`,
`func(*ConsumerConfig) error`) are embedded as pure functions from a
configuration to a (possibly failing) configuration.  The opaque Go
payload `interface{}` becomes a type parameter `α`.  Side-effecting
callbacks (`onBackpressure`, `postBroadcast`) are carried as
`Option (α → Unit)` values; an invocation of a callback is recorded in an
event log of the state rather than executed.
-/

namespace Mux

/-- Embeds `ConsumerConfig` from src/mux/common.go: an optional
on-backpressure callback and a disconnect-on-backpressure flag. -/
structure ConsumerConfig (α : Type) where
  onBackpressure : Option (α → Unit)
  disconnectOnBackpressure : Bool

/-- Embeds `BroadcasterConfig` from src/mux/common.go: an optional
post-broadcast callback and the eager-broadcast flag. -/
structure BroadcasterConfig (α : Type) where
  postBroadcast : Option (α → Unit)
  eagerBroadcast : Bool

/-- Embeds `BroadcasterOptionFunc` from src/mux/common.go
(`func(*BroadcasterConfig)`), as a pure config transformer. -/
def BroadcasterOptionFunc (α : Type) : Type := BroadcasterConfig α → BroadcasterConfig α

/-- Embeds `ConsumerOptionFunc` from src/mux/common.go
(`func(*ConsumerConfig) error`), as a config transformer that may fail. -/
def ConsumerOptionFunc (α : Type) : Type := ConsumerConfig α → Except String (ConsumerConfig α)

/-- Embeds the method `(*ConsumerConfig).OnBackpressure` from
src/mux/common.go: sets the onBackpressure field. -/
def ConsumerConfig.OnBackpressure (s : ConsumerConfig α) (f : α → Unit) : ConsumerConfig α :=
  { s with onBackpressure := some f }

/-- Embeds the method `(*ConsumerConfig).DisconnectOnBackpressure` from
src/mux/common.go: sets the disconnectOnBackpressure field to true. -/
def ConsumerConfig.DisconnectOnBackpressure (s : ConsumerConfig α) : ConsumerConfig α :=
  { s with disconnectOnBackpressure := true }

/-- Embeds `WithOnBackPressure` from src/mux/common.go: returns an option
function that installs the callback and returns a nil error. -/
def WithOnBackPressure (f : α → Unit) : ConsumerOptionFunc α :=
  fun c => Except.ok { c with onBackpressure := some f }

/-- Embeds `DisconnectOnBackPressure` from src/mux/common.go: returns an
option function that sets the disconnect flag and returns a nil error. -/
def DisconnectOnBackPressure : ConsumerOptionFunc α :=
  fun c => Except.ok { c with disconnectOnBackpressure := true }

/-- Embeds the method `(*BroadcasterConfig).PostBroadcast` from
src/mux/common.go: installs the post-broadcast callback. -/
def BroadcasterConfig.PostBroadcast (b : BroadcasterConfig α) (f : α → Unit) :
    BroadcasterConfig α :=
  { b with postBroadcast := some f }

/-- Embeds the method `(*BroadcasterConfig).EagerBroadcast` from
src/mux/common.go: sets the eagerBroadcast flag to the given value. -/
def BroadcasterConfig.EagerBroadcast (b : BroadcasterConfig α) (eager : Bool) :
    BroadcasterConfig α :=
  { b with eagerBroadcast := eager }

/-- Embeds the variable `LazyBroadcast` from src/mux/common.go: the option
function setting eagerBroadcast to false. -/
def LazyBroadcast : BroadcasterOptionFunc α :=
  fun bc => { bc with eagerBroadcast := false }

/-- Modelled from the spec: the default broadcaster configuration used by
the constructors (the constructor code, broadcaster.go, is not under
src/).  Spec §6: "`EagerBroadcast(bool)`: default true"; no post-broadcast
callback is installed by default. -/
def defaultBroadcasterConfig : BroadcasterConfig α :=
  { postBroadcast := none, eagerBroadcast := true }

/-- Modelled from the spec: the history policy of a broadcaster variant
(§3 "history policy: one of {none, bounded-count N, time-to-live D}").
Durations and instants are abstract naturals. -/
inductive HistoryPolicy where
  | nohistory : HistoryPolicy
  | boundedCount (n : Nat) : HistoryPolicy
  | ttl (d : Nat) : HistoryPolicy

/-- Modelled from the spec: a consumer descriptor (§3).  The write-only
delivery channel is modelled by its identity `id` (spec: "Consumer
identity is the channel itself"), the list `received` of values delivered
on it so far, and an environment oracle `accepts` stating whether the
channel has free capacity at the k-th non-blocking send attempted on it
(the channel's receiver is outside the model).  `offers` counts the send
attempts made so far. -/
structure MConsumer (α : Type) where
  id : Nat
  config : ConsumerConfig α
  accepts : Nat → Bool
  offers : Nat
  received : List α

/-- Modelled from the spec: the broadcaster state (§3 lifecycle, §5
ownership).  `history` holds (expires-at, value) pairs; the instant is
meaningful only under a ttl policy (§3 History Buffer).  `dispatching`
records whether the dispatch loop has started (eager: at construction;
lazy: at first registration).  `bpLog` records each invocation of a
consumer's on-backpressure callback as (consumer id, value); `closeLog`
records each closing of a consumer channel by its id; `postLog` records
each invocation of the broadcaster-level post-broadcast callback. -/
structure BState (α : Type) where
  config : BroadcasterConfig α
  policy : HistoryPolicy
  bufferSize : Nat
  consumers : List (MConsumer α)
  history : List (Nat × α)
  dispatching : Bool
  closed : Bool
  bpLog : List (Nat × α)
  closeLog : List Nat
  postLog : List α

/-- Modelled from the spec: outcome of one non-blocking send attempt to a
consumer (§4.3 "On value"): the updated consumer, whether it must be
disconnected (disconnect-on-backpressure), and the backpressure-callback
invocations recorded (empty or a single event). -/
structure OfferResult (α : Type) where
  consumer : MConsumer α
  disconnected : Bool
  bp : List (Nat × α)

/-- Modelled from the spec §4.3 "On value": attempt a non-blocking send of
`v` to consumer `c`.  If the channel has free capacity the send succeeds;
otherwise the on-backpressure callback is invoked if configured, and the
consumer is disconnected if its disconnect flag is set, else the value is
dropped for this consumer only. -/
def offer (c : MConsumer α) (v : α) : OfferResult α :=
  if c.accepts c.offers then
    { consumer := { c with offers := c.offers + 1, received := c.received ++ [v] }
      disconnected := false
      bp := [] }
  else
    { consumer := { c with offers := c.offers + 1 }
      disconnected := c.config.disconnectOnBackpressure
      bp := if c.config.onBackpressure.isSome then [(c.id, v)] else [] }

/-- Modelled from the spec §4.3: offer value `v` to every registered
consumer exactly once, removing consumers disconnected on backpressure.
Returns the surviving consumers, the backpressure events, and the ids of
channels closed by disconnection. -/
def offerAll : List (MConsumer α) → α → List (MConsumer α) × List (Nat × α) × List Nat
  | [], _ => ([], [], [])
  | c :: cs, v =>
    let r := offer c v
    let rest := offerAll cs v
    if r.disconnected then (rest.1, r.bp ++ rest.2.1, c.id :: rest.2.2)
    else (r.consumer :: rest.1, r.bp ++ rest.2.1, rest.2.2)

/-- Modelled from the spec §4.3 eviction policy: for bounded-count, after
append pop from the front until size ≤ N; for time-to-live, on each value
arrival drop leading entries whose expiry ≤ now, and stamp the new entry
with expiry now + D; with no history the buffer stays empty. -/
def pushHistory (p : HistoryPolicy) (h : List (Nat × α)) (now : Nat) (v : α) :
    List (Nat × α) :=
  match p with
  | .nohistory => h
  | .boundedCount n =>
    let h' := h ++ [(0, v)]
    h'.drop (h'.length - n)
  | .ttl d => (h.dropWhile fun e => decide (e.1 ≤ now)) ++ [(now + d, v)]

/-- Modelled from the spec §4.3 "On value": the dispatcher's handling of
one value: append to the History Buffer if enabled, offer the value to
every registered consumer with the per-consumer backpressure policy, then
invoke the broadcaster-level post-broadcast callback if configured. -/
def dispatchValue (s : BState α) (now : Nat) (v : α) : BState α :=
  let r := offerAll s.consumers v
  { s with
    history := pushHistory s.policy s.history now v
    consumers := r.1
    bpLog := s.bpLog ++ r.2.1
    closeLog := s.closeLog ++ r.2.2
    postLog := s.postLog ++ (if s.config.postBroadcast.isSome then [v] else []) }

/-- Modelled from the spec: the observable outcome of a submit call
(§4.1, §7).  `ok` carries the state after the dispatcher accepted the
value; `blocked` records that the call does not return (lazy gating:
"submissions in this window either block … or are refused"); `closedErr`
and `dropped` carry the error message returned to the caller. -/
inductive SubmitRes (α : Type) where
  | ok (s : BState α) : SubmitRes α
  | blocked : SubmitRes α
  | closedErr (msg : String) : SubmitRes α
  | dropped (msg : String) : SubmitRes α

/-- Modelled from the spec §4.1 `submit-blocking(v)`: fails with Closed
after termination; in lazy mode before the first registration the
dispatcher is not running and the call blocks; otherwise the dispatcher
accepts and fans out the value. -/
def SubmitBlocking (s : BState α) (now : Nat) (v : α) : SubmitRes α :=
  if s.closed then .closedErr "broadcaster closed"
  else if s.dispatching then .ok (dispatchValue s now v)
  else .blocked

/-- Modelled from the spec §4.1 `submit-non-blocking(v)` and §4.1 lazy
gating: fails with Closed after termination; while the dispatcher is not
running (lazy mode, no consumer yet) the submission is refused with
Dropped, whose message text includes the phrase "value dropped", and the
value is not delivered to any consumer; otherwise the running dispatcher
accepts the value. -/
def SubmitNonBlocking (s : BState α) (now : Nat) (v : α) : SubmitRes α :=
  if s.closed then .closedErr "broadcaster closed"
  else if s.dispatching then .ok (dispatchValue s now v)
  else .dropped "unable to send message to broadcaster, value dropped"

/-- Modelled from the spec: submit a whole sequence of values through
`SubmitBlocking`, stopping with `none` if any call fails to return a
successor state. -/
def submitList (now : Nat) (s : BState α) : List α → Option (BState α)
  | [] => some s
  | v :: vs =>
    match SubmitBlocking s now v with
    | .ok s' => submitList now s' vs
    | _ => none

/-- Modelled from the spec §4.2/§4.3 "On control request", registration
half: replay the History Buffer into the new consumer's channel
synchronously, respecting the same backpressure policy as live delivery; a
slow late joiner can be dropped mid-replay if disconnect-on-backpressure
is set.  Returns the consumer after replay (or `none` if disconnected),
the backpressure events, and the ids of channels closed mid-replay. -/
def replayInto (c : MConsumer α) : List α → Option (MConsumer α) × List (Nat × α) × List Nat
  | [] => (some c, [], [])
  | v :: vs =>
    let r := offer c v
    if r.disconnected then (none, r.bp, [c.id])
    else
      let rest := replayInto r.consumer vs
      (rest.1, r.bp ++ rest.2.1, rest.2.2)

/-- Modelled from the spec §3: purge of the History Buffer before replay:
under a ttl policy, entries with expires-at ≤ now are purged; other
policies replay the buffer as stored. -/
def purgeHistory (p : HistoryPolicy) (h : List (Nat × α)) (now : Nat) : List (Nat × α) :=
  match p with
  | .ttl _ => h.dropWhile fun e => decide (e.1 ≤ now)
  | _ => h

/-- Modelled from the spec §4.2 `register(channel, opts…)`: rejected with
Closed after termination and with AlreadyRegistered for a duplicate
channel; otherwise the history (purged of expired entries) is replayed
into the new channel before it becomes eligible for live delivery, and the
dispatch loop is started if it was not running (lazy start on first
registration). -/
def Register (s : BState α) (now : Nat) (id : Nat) (cfg : ConsumerConfig α)
    (accepts : Nat → Bool) : Except String (BState α) :=
  if s.closed then .error "broadcaster closed"
  else if s.consumers.any fun c => c.id == id then .error "already registered"
  else
    let purged := purgeHistory s.policy s.history now
    let r := replayInto ⟨id, cfg, accepts, 0, []⟩ (purged.map Prod.snd)
    .ok { s with
      consumers := s.consumers ++ (match r.1 with | some c => [c] | none => [])
      history := purged
      dispatching := true
      bpLog := s.bpLog ++ r.2.1
      closeLog := s.closeLog ++ r.2.2 }

/-- Modelled from the spec §4.2 `unregister(channel)`: rejected with
Closed after termination and NotRegistered for an unknown channel;
otherwise the consumer is removed and its channel closed. -/
def Unregister (s : BState α) (id : Nat) : Except String (BState α) :=
  if s.closed then .error "broadcaster closed"
  else if s.consumers.any fun c => c.id == id then
    .ok { s with
      consumers := s.consumers.filter fun c => c.id != id
      closeLog := s.closeLog ++ [id] }
  else .error "not registered"

/-- Modelled from the spec §4.2 `close()`: unregisters every consumer,
closes every channel, shuts the dispatcher down and releases the History
Buffer.  Idempotent: a second call changes nothing and returns no
error. -/
def Close (s : BState α) : Except String (BState α) :=
  if s.closed then .ok s
  else .ok { s with
    consumers := []
    history := []
    dispatching := false
    closed := true
    closeLog := s.closeLog ++ s.consumers.map MConsumer.id }

/-- Modelled from the spec §6: the fresh state shared by the three
constructors: no consumers, empty history, dispatching exactly when the
configuration is eager, not closed, empty logs. -/
def initState (cfg : BroadcasterConfig α) (p : HistoryPolicy) (buf : Nat) : BState α :=
  { config := cfg, policy := p, bufferSize := buf, consumers := [], history := []
    dispatching := cfg.eagerBroadcast, closed := false
    bpLog := [], closeLog := [], postLog := [] }

/-- Modelled from the spec §6: apply the option functions in order to the
default configuration. -/
def applyOpts (opts : List (BroadcasterOptionFunc α)) : BroadcasterConfig α :=
  opts.foldl (fun c o => o c) defaultBroadcasterConfig

/-- Modelled from the spec §6 `NewNonBlockingBroadcaster(bufferSize,
opts…)`: fails with InvalidConfig when bufferSize < 0, else a no-history
broadcaster. -/
def NewNonBlockingBroadcaster (bufferSize : Int)
    (opts : List (BroadcasterOptionFunc α)) : Except String (BState α) :=
  if bufferSize < 0 then .error "invalid config: negative buffer size"
  else .ok (initState (applyOpts opts) .nohistory bufferSize.toNat)

/-- Modelled from the spec §6 `NewNonBlockingReplayBroadcaster(bufferSize,
replayCount, opts…)`: a bounded-count history broadcaster. -/
def NewNonBlockingReplayBroadcaster (bufferSize : Int) (replayCount : Nat)
    (opts : List (BroadcasterOptionFunc α)) : Except String (BState α) :=
  if bufferSize < 0 then .error "invalid config: negative buffer size"
  else .ok (initState (applyOpts opts) (.boundedCount replayCount) bufferSize.toNat)

/-- Modelled from the spec §6 `NewNonBlockingTTLBroadcaster(bufferSize,
ttl, opts…)`: a time-to-live history broadcaster. -/
def NewNonBlockingTTLBroadcaster (bufferSize : Int) (ttl : Nat)
    (opts : List (BroadcasterOptionFunc α)) : Except String (BState α) :=
  if bufferSize < 0 then .error "invalid config: negative buffer size"
  else .ok (initState (applyOpts opts) (.ttl ttl) bufferSize.toNat)

end Mux

namespace Mux

/-- One non-blocking send to a consumer whose channel has free capacity
succeeds and records no backpressure event. -/
theorem offer_of_accepts (c : MConsumer α) (v : α) (h : c.accepts c.offers = true) :
    offer c v =
      { consumer := { c with offers := c.offers + 1, received := c.received ++ [v] }
        disconnected := false
        bp := [] } := by
  simp [offer, h]

/-- Dispatching one value to consumers that all have free capacity
delivers it to each of them and produces no backpressure or
disconnection. -/
theorem offerAll_allAccept (cs : List (MConsumer α)) (v : α)
    (h : ∀ c ∈ cs, c.accepts c.offers = true) :
    offerAll cs v =
      (cs.map fun c => { c with offers := c.offers + 1, received := c.received ++ [v] },
       [], []) := by
  induction cs with
  | nil => rfl
  | cons c cs ih =>
    have hc : c.accepts c.offers = true := h c (by simp)
    have ih' := ih fun d hd => h d (by simp [hd])
    simp [offerAll, offer_of_accepts c v hc, ih']

/-- One dispatcher step on a state whose consumers all have free capacity:
the value goes into the history and onto every consumer channel. -/
theorem dispatchValue_allAccept (s : BState α) (now : Nat) (v : α)
    (h : ∀ c ∈ s.consumers, c.accepts c.offers = true) :
    dispatchValue s now v =
      { s with
        history := pushHistory s.policy s.history now v
        consumers := s.consumers.map fun c =>
          { c with offers := c.offers + 1, received := c.received ++ [v] }
        postLog := s.postLog ++ (if s.config.postBroadcast.isSome then [v] else []) } := by
  simp [dispatchValue, offerAll_allAccept s.consumers v h]

/-- C1: fan-out correctness.  For every finite sequence of values
submitted through `SubmitBlocking` to a dispatching broadcaster, if no
registered consumer is slow (every consumer channel has free capacity at
every dispatch), then every registered consumer receives every submitted
value, in submission order, appended to what it had already received. -/
theorem fanout_correctness (s : BState α) (now : Nat) (vs : List α)
    (hcl : s.closed = false) (hd : s.dispatching = true)
    (hfast : ∀ c ∈ s.consumers, ∀ k, c.accepts k = true) :
    ∃ s', submitList now s vs = some s' ∧ s'.closed = false ∧ s'.dispatching = true ∧
      s'.consumers = s.consumers.map fun c =>
        { c with offers := c.offers + vs.length, received := c.received ++ vs } := by
  induction vs generalizing s with
  | nil =>
    refine ⟨s, rfl, hcl, hd, ?_⟩
    simp
  | cons v vs ih =>
    have hsub : SubmitBlocking s now v = .ok (dispatchValue s now v) := by
      simp [SubmitBlocking, hcl, hd]
    have hstep := dispatchValue_allAccept s now v fun c hc => hfast c hc c.offers
    have hcl1 : (dispatchValue s now v).closed = false := by rw [hstep]; exact hcl
    have hd1 : (dispatchValue s now v).dispatching = true := by rw [hstep]; exact hd
    have hfast1 : ∀ c ∈ (dispatchValue s now v).consumers, ∀ k, c.accepts k = true := by
      rw [hstep]
      intro c hc k
      simp only [List.mem_map] at hc
      obtain ⟨d, hd', rfl⟩ := hc
      exact hfast d hd' k
    obtain ⟨s', hrun, p1, p2, p3⟩ := ih (dispatchValue s now v) hcl1 hd1 hfast1
    refine ⟨s', ?_, p1, p2, ?_⟩
    · simp [submitList, hsub, hrun]
    · rw [p3, hstep]
      simp only [List.map_map]
      apply List.map_congr_left
      intro c _
      simp only [Function.comp, List.length_cons]
      congr 1
      · omega
      · simp

/-- Concrete broadcaster states used to exercise the theorems: a consumer
that always has free capacity. -/
def fastConsumer (i : Nat) : MConsumer Nat :=
  ⟨i, ⟨none, false⟩, fun _ => true, 0, []⟩

/-- Concrete dispatching state with two fast consumers. -/
def twoFastState : BState Nat :=
  { config := { postBroadcast := none, eagerBroadcast := true }
    policy := .nohistory
    bufferSize := 0
    consumers := [fastConsumer 1, fastConsumer 2]
    history := []
    dispatching := true
    closed := false
    bpLog := [], closeLog := [], postLog := [] }

/-- C1 witness: submitting 10, 20, 30 to a broadcaster with two fast
consumers delivers all three values to both, in order. -/
theorem fanout_correctness_witness :
    twoFastState.closed = false ∧ twoFastState.dispatching = true ∧
    ∃ s', submitList 0 twoFastState [10, 20, 30] = some s' ∧
      s'.closed = false ∧ s'.dispatching = true ∧
      s'.consumers = twoFastState.consumers.map fun c =>
        { c with offers := c.offers + 3, received := c.received ++ [10, 20, 30] } := by
  refine ⟨rfl, rfl, ?_⟩
  exact fanout_correctness twoFastState 0 [10, 20, 30] rfl rfl
    (by
      intro c hc k
      simp only [twoFastState, List.mem_cons, List.not_mem_nil, or_false] at hc
      rcases hc with rfl | rfl <;> rfl)

/-- Values a consumer with capacity oracle `f` accepts out of `vs`, when
its k-th send attempt is the next one: the sub-sequence of `vs` at offer
indices where the channel has free capacity. -/
def acceptedFrom (f : Nat → Bool) : Nat → List α → List α
  | _, [] => []
  | k, v :: vs => (if f k then [v] else []) ++ acceptedFrom f (k + 1) vs

/-- Values a consumer with capacity oracle `f` refuses out of `vs`: the
sub-sequence of `vs` at offer indices where the channel is full. -/
def refusedFrom (f : Nat → Bool) : Nat → List α → List α
  | _, [] => []
  | k, v :: vs => (if f k then [] else [v]) ++ refusedFrom f (k + 1) vs

/-- C2: backpressure isolation.  With a possibly slow consumer `a`
(on-backpressure callback installed, no disconnect policy) and a fast
consumer `b` registered, submitting any sequence of values delivers every
value to `b` in submission order, delivers to `a` exactly the values its
channel could accept, and invokes `a`'s on-backpressure callback exactly
once for each value `a` could not accept — never for accepted values and
never for `b`. -/
theorem backpressure_isolation (s : BState α) (now : Nat) (vs : List α)
    (a b : MConsumer α)
    (hcons : s.consumers = [a, b])
    (hcl : s.closed = false) (hd : s.dispatching = true)
    (hbp : a.config.onBackpressure.isSome = true)
    (hnd : a.config.disconnectOnBackpressure = false)
    (hfast : ∀ k, b.accepts k = true) :
    ∃ s', submitList now s vs = some s' ∧
      s'.consumers =
        [{ a with offers := a.offers + vs.length,
                  received := a.received ++ acceptedFrom a.accepts a.offers vs },
         { b with offers := b.offers + vs.length, received := b.received ++ vs }] ∧
      s'.bpLog = s.bpLog ++ (refusedFrom a.accepts a.offers vs).map fun w => (a.id, w) := by
  induction vs generalizing s a b with
  | nil =>
    refine ⟨s, rfl, ?_, by simp [refusedFrom]⟩
    simp [hcons, acceptedFrom]
  | cons v vs ih =>
    have hsub : SubmitBlocking s now v = .ok (dispatchValue s now v) := by
      simp [SubmitBlocking, hcl, hd]
    by_cases ha : a.accepts a.offers = true
    · -- the slow consumer accepts this value
      obtain ⟨s', hrun, hc, hb⟩ :=
        ih (dispatchValue s now v)
          { a with offers := a.offers + 1, received := a.received ++ [v] }
          { b with offers := b.offers + 1, received := b.received ++ [v] }
          (by simp [dispatchValue, hcons, offerAll, offer, ha, hfast b.offers])
          (by simp [dispatchValue, hcl])
          (by simp [dispatchValue, hd])
          hbp hnd hfast
      refine ⟨s', by simp [submitList, hsub, hrun], ?_, ?_⟩
      · rw [hc]
        simp [acceptedFrom, ha, List.append_assoc]
        omega
      · rw [hb]
        simp [dispatchValue, hcons, offerAll, offer, ha, hfast b.offers, refusedFrom]
    · -- the slow consumer refuses this value: backpressure callback fires
      have ha' : a.accepts a.offers = false := by
        cases h : a.accepts a.offers
        · rfl
        · exact absurd h ha
      obtain ⟨s', hrun, hc, hb⟩ :=
        ih (dispatchValue s now v)
          { a with offers := a.offers + 1 }
          { b with offers := b.offers + 1, received := b.received ++ [v] }
          (by simp [dispatchValue, hcons, offerAll, offer, ha', hnd, hbp, hfast b.offers])
          (by simp [dispatchValue, hcl])
          (by simp [dispatchValue, hd])
          hbp hnd hfast
      refine ⟨s', by simp [submitList, hsub, hrun], ?_, ?_⟩
      · rw [hc]
        simp [acceptedFrom, ha', List.append_assoc]
        omega
      · rw [hb]
        simp [dispatchValue, hcons, offerAll, offer, ha', hnd, hbp, hfast b.offers,
          refusedFrom, List.append_assoc]

/-- Concrete S1 slow consumer: reads 5 values then stops; callback
installed. -/
def s1Slow : MConsumer Nat :=
  ⟨1, ⟨some fun _ => (), false⟩, fun k => decide (k < 5), 0, []⟩

/-- Concrete S1 fast consumer: drained continuously; callback
installed. -/
def s1Fast : MConsumer Nat :=
  ⟨2, ⟨some fun _ => (), false⟩, fun _ => true, 0, []⟩

/-- Concrete S1 broadcaster state with the slow and fast consumers
registered. -/
def s1State : BState Nat :=
  { config := { postBroadcast := none, eagerBroadcast := true }
    policy := .nohistory
    bufferSize := 20
    consumers := [s1Slow, s1Fast]
    history := []
    dispatching := true
    closed := false
    bpLog := [], closeLog := [], postLog := [] }

/-- C2 witness: the S1 scenario.  Submitting 0..19 with a slow consumer
that accepts only its first 5 offers and a fast consumer: the fast
consumer receives all 20 values, and the backpressure log records exactly
15 events, all for the slow consumer. -/
theorem backpressure_isolation_witness :
    (∃ s', submitList 0 s1State (List.range 20) = some s' ∧
      s'.consumers =
        [{ s1Slow with offers := s1Slow.offers + (List.range 20).length,
                       received := s1Slow.received ++
                         acceptedFrom s1Slow.accepts s1Slow.offers (List.range 20) },
         { s1Fast with offers := s1Fast.offers + (List.range 20).length,
                       received := s1Fast.received ++ List.range 20 }] ∧
      s'.bpLog = s1State.bpLog ++
        (refusedFrom s1Slow.accepts s1Slow.offers (List.range 20)).map
          fun w => (s1Slow.id, w)) ∧
    ((refusedFrom s1Slow.accepts s1Slow.offers (List.range 20)).map
        fun w => (s1Slow.id, w)).length = 15 ∧
    (∀ p ∈ (refusedFrom s1Slow.accepts s1Slow.offers (List.range 20)).map
        fun w => (s1Slow.id, w), p.1 = 1) ∧
    acceptedFrom s1Slow.accepts s1Slow.offers (List.range 20) = [0, 1, 2, 3, 4] := by
  refine ⟨?_, by decide, by decide, by decide⟩
  exact backpressure_isolation s1State 0 (List.range 20) s1Slow s1Fast rfl rfl rfl
    rfl rfl fun k => rfl

/-- C3: lazy producer backpressure.  A broadcaster constructed with the
`LazyBroadcast` option starts with no registered consumer and a
non-running dispatcher, so `SubmitBlocking` blocks (does not return); the
first registration starts the dispatcher. -/
theorem lazy_submitBlocking_blocks (buf : Int) (s : BState α) (now : Nat) (v : α)
    (h : NewNonBlockingBroadcaster buf [LazyBroadcast] = Except.ok s) :
    SubmitBlocking s now v = SubmitRes.blocked ∧
    s.consumers = [] ∧
    ∀ id cfg acc, ∃ s', Register s now id cfg acc = Except.ok s' ∧
      s'.dispatching = true := by
  unfold NewNonBlockingBroadcaster at h
  split at h
  · exact absurd h (by simp)
  · have hs : s = initState (applyOpts [LazyBroadcast]) .nohistory buf.toNat := by
      injection h with h
      exact h.symm
    subst hs
    refine ⟨rfl, rfl, ?_⟩
    intro id cfg acc
    exact ⟨_, rfl, rfl⟩

/-- C3 witness: the S2 scenario, a lazy broadcaster with buffer 0 and no
consumer: `SubmitBlocking "someValue"` blocks. -/
theorem lazy_submitBlocking_blocks_witness :
    ∃ s : BState String, NewNonBlockingBroadcaster 0 [LazyBroadcast] = Except.ok s ∧
      SubmitBlocking s 0 "someValue" = SubmitRes.blocked := by
  refine ⟨initState (applyOpts [LazyBroadcast]) .nohistory 0, rfl, ?_⟩
  exact (lazy_submitBlocking_blocks 0 _ 0 "someValue" rfl).1

/-- C4: dropped error contract.  Whenever `SubmitNonBlocking` cannot hand
the value to the dispatcher (the lazy window: dispatcher not running), it
returns a Dropped error whose message contains the phrase "value
dropped", and no successor state exists, so the value is not delivered to
any consumer. -/
theorem submitNonBlocking_value_dropped (s : BState α) (now : Nat) (v : α)
    (h1 : s.closed = false) (h2 : s.dispatching = false) :
    ∃ msg, SubmitNonBlocking s now v = SubmitRes.dropped msg ∧
      (∃ a b, msg = a ++ "value dropped" ++ b) ∧
      ∀ s', SubmitNonBlocking s now v ≠ SubmitRes.ok s' := by
  refine ⟨"unable to send message to broadcaster, value dropped", ?_,
    ⟨"unable to send message to broadcaster, ", "", rfl⟩, ?_⟩
  · simp [SubmitNonBlocking, h1, h2]
  · intro s' hcontra
    simp [SubmitNonBlocking, h1, h2] at hcontra

/-- C4 witness: the S3 scenario, a lazy broadcaster with buffer 0 and no
consumer: `SubmitNonBlocking "someValue"` is dropped with the "value
dropped" message. -/
theorem submitNonBlocking_value_dropped_witness :
    (initState (α := String) (applyOpts [LazyBroadcast]) .nohistory 0).closed = false ∧
    (initState (α := String) (applyOpts [LazyBroadcast]) .nohistory 0).dispatching = false ∧
    ∃ msg, SubmitNonBlocking (initState (α := String) (applyOpts [LazyBroadcast]) .nohistory 0)
        0 "someValue" = SubmitRes.dropped msg ∧
      (∃ a b, msg = a ++ "value dropped" ++ b) ∧
      ∀ s', SubmitNonBlocking (initState (α := String) (applyOpts [LazyBroadcast]) .nohistory 0)
        0 "someValue" ≠ SubmitRes.ok s' :=
  ⟨rfl, rfl, submitNonBlocking_value_dropped _ 0 "someValue" rfl rfl⟩

/-- C5: eager no-backpressure.  A broadcaster constructed in eager mode
(the default) accepts a blocking submission at once even with no
registered consumer: the call returns with no error, and the value is
lost (no consumer holds it and the no-history buffer does not retain
it). -/
theorem eager_submitBlocking_returns (buf : Int) (s : BState α) (now : Nat) (v : α)
    (h : NewNonBlockingBroadcaster buf [] = Except.ok s) :
    ∃ s', SubmitBlocking s now v = SubmitRes.ok s' ∧
      s'.consumers = [] ∧ s'.history = [] := by
  unfold NewNonBlockingBroadcaster at h
  split at h
  · exact absurd h (by simp)
  · have hs : s = initState (applyOpts []) .nohistory buf.toNat := by
      injection h with h
      exact h.symm
    subst hs
    exact ⟨_, rfl, rfl, rfl⟩

/-- C5 witness: the S4 scenario, an eager broadcaster with buffer 0:
`SubmitBlocking "someValue"` returns without error and the value reaches
no consumer. -/
theorem eager_submitBlocking_returns_witness :
    ∃ s : BState String, NewNonBlockingBroadcaster 0 [] = Except.ok s ∧
      ∃ s', SubmitBlocking s 0 "someValue" = SubmitRes.ok s' ∧
        s'.consumers = [] ∧ s'.history = [] :=
  ⟨initState (applyOpts []) .nohistory 0, rfl,
    eager_submitBlocking_returns 0 _ 0 "someValue" rfl⟩

/-- Dropping at most the whole first part of an append distributes over
the append. -/
theorem drop_append_of_le_len (l t : List β) (k : Nat) (hk : k ≤ l.length) :
    (l ++ t).drop k = l.drop k ++ t := by
  rw [List.drop_append_eq_append_drop, Nat.sub_eq_zero_of_le hk, List.drop_zero]

/-- Submitting values to a broadcaster with no registered consumer only
folds them into the History Buffer (no post-broadcast callback
configured). -/
theorem submitList_no_consumers (now : Nat) (vs : List α) (s : BState α)
    (hcl : s.closed = false) (hd : s.dispatching = true) (hc : s.consumers = [])
    (hpost : s.config.postBroadcast = none) :
    submitList now s vs =
      some { s with
             history := vs.foldl (fun h v => pushHistory s.policy h now v) s.history } := by
  induction vs generalizing s with
  | nil => simp [submitList]
  | cons v vs ih =>
    have hsub : SubmitBlocking s now v = .ok (dispatchValue s now v) := by
      simp [SubmitBlocking, hcl, hd]
    have hstep : dispatchValue s now v
        = { s with history := pushHistory s.policy s.history now v } := by
      simp [dispatchValue, hc, offerAll, hpost]
    have hrec := ih { s with history := pushHistory s.policy s.history now v }
      hcl hd hc hpost
    rw [submitList, hsub]
    show submitList now (dispatchValue s now v) vs = _
    rw [hstep, hrec]
    rfl

/-- The bounded-count eviction policy keeps exactly the tail of the
submitted values that fits in the window: folding the push over `vs`
starting from a buffer not yet over capacity drops everything but the last
N entries. -/
theorem foldl_push_bounded (n now : Nat) (vs : List α) (h : List (Nat × α))
    (hlen : h.length ≤ n) :
    vs.foldl (fun acc v => pushHistory (.boundedCount n) acc now v) h =
      (h ++ vs.map fun w => (0, w)).drop (h.length + vs.length - n) := by
  induction vs generalizing h with
  | nil =>
    have h0 : h.length + ([] : List α).length - n = 0 := by
      simp only [List.length_nil]
      omega
    simp only [List.foldl_nil, List.map_nil, List.append_nil, h0, List.drop_zero]
  | cons v vs ih =>
    have hstep : pushHistory (.boundedCount n) h now v
        = (h ++ [(0, v)]).drop (h.length + 1 - n) := by
      simp [pushHistory]
    have hlen' : (pushHistory (.boundedCount n) h now v).length ≤ n := by
      rw [hstep]
      simp only [List.length_drop, List.length_append, List.length_singleton]
      omega
    rw [List.foldl_cons, ih _ hlen', hstep,
      ← drop_append_of_le_len (h ++ [(0, v)]) (vs.map fun w => (0, w)) (h.length + 1 - n)
        (by simp),
      List.drop_drop]
    have hXY : (h ++ [(0, v)]) ++ (vs.map fun w => (0, w))
        = h ++ (v :: vs).map fun w => (0, w) := by
      simp
    rw [hXY]
    congr 1
    simp only [hstep, List.length_drop, List.length_append, List.length_singleton,
      List.length_map, List.length_cons, List.length_nil]
    omega

/-- Replaying a history slice into a consumer whose channel always has
free capacity delivers the whole slice in order, with no backpressure and
no disconnection. -/
theorem replayInto_allAccept (c : MConsumer α) (vs : List α)
    (hacc : ∀ k, c.accepts k = true) :
    replayInto c vs =
      (some { c with offers := c.offers + vs.length, received := c.received ++ vs },
       [], []) := by
  induction vs generalizing c with
  | nil => simp [replayInto]
  | cons v vs ih =>
    have hofr := offer_of_accepts c v (hacc c.offers)
    have ih' := ih { c with offers := c.offers + 1, received := c.received ++ [v] }
      fun k => hacc k
    rw [replayInto, hofr]
    simp only [ih']
    simp [List.append_assoc]
    omega

/-- Registration of a fresh consumer whose channel always has free
capacity: the purged history is replayed into it in order and the
dispatcher is (re)started. -/
theorem Register_allAccept (s : BState α) (now id : Nat) (cfg : ConsumerConfig α)
    (acc : Nat → Bool)
    (hcl : s.closed = false)
    (hid : (s.consumers.any fun c => c.id == id) = false)
    (hacc : ∀ k, acc k = true) :
    Register s now id cfg acc =
      Except.ok
        { s with
          consumers := s.consumers ++
            [⟨id, cfg, acc, (purgeHistory s.policy s.history now).length,
              (purgeHistory s.policy s.history now).map Prod.snd⟩]
          history := purgeHistory s.policy s.history now
          dispatching := true } := by
  have hrep := replayInto_allAccept (⟨id, cfg, acc, 0, []⟩ : MConsumer α)
    ((purgeHistory s.policy s.history now).map Prod.snd) hacc
  simp [Register, hcl, hid, hrep]

/-- Submitting values to a broadcaster with no registered consumer,
characterised field by field. -/
theorem submitList_no_consumers_fields (now : Nat) (vs : List α) (s : BState α)
    (hcl : s.closed = false) (hd : s.dispatching = true) (hc : s.consumers = [])
    (hpost : s.config.postBroadcast = none) :
    ∃ s', submitList now s vs = some s' ∧ s'.consumers = [] ∧ s'.closed = false ∧
      s'.dispatching = true ∧ s'.policy = s.policy ∧ s'.config = s.config ∧
      s'.history = vs.foldl (fun h v => pushHistory s.policy h now v) s.history :=
  ⟨_, submitList_no_consumers now vs s hcl hd hc hpost, hc, hcl, hd, rfl, rfl, rfl⟩

/-- Registration of a fresh, always-accepting consumer, characterised
field by field: the purged history is replayed into the new consumer. -/
theorem Register_allAccept_fields (s : BState α) (now id : Nat)
    (cfg : ConsumerConfig α) (acc : Nat → Bool)
    (hcl : s.closed = false)
    (hid : (s.consumers.any fun c => c.id == id) = false)
    (hacc : ∀ k, acc k = true) :
    ∃ s' c, Register s now id cfg acc = Except.ok s' ∧
      s'.consumers = s.consumers ++ [c] ∧
      c.id = id ∧ c.config = cfg ∧ c.accepts = acc ∧
      c.received = (purgeHistory s.policy s.history now).map Prod.snd ∧
      s'.closed = false ∧ s'.dispatching = true ∧
      s'.config = s.config ∧ s'.policy = s.policy ∧
      s'.history = purgeHistory s.policy s.history now ∧
      s'.bpLog = s.bpLog :=
  ⟨_, _, Register_allAccept s now id cfg acc hcl hid hacc,
    rfl, rfl, rfl, rfl, rfl, hcl, rfl, rfl, rfl, rfl, rfl⟩

/-- C6: bounded-count replay correctness.  On a replay broadcaster with
history capacity N, submitting K values and then registering a consumer
delivers to it exactly the last min(K, N) of those values, in submission
order, before any value submitted after its registration. -/
theorem replay_correctness (buf : Int) (n now id : Nat) (cfg : ConsumerConfig α)
    (acc : Nat → Bool) (vs ws : List α) (s0 : BState α)
    (h0 : NewNonBlockingReplayBroadcaster buf n [] = Except.ok s0)
    (hacc : ∀ k, acc k = true) :
    ∃ s1 s2 s3 c,
      submitList now s0 vs = some s1 ∧
      Register s1 now id cfg acc = Except.ok s2 ∧
      submitList now s2 ws = some s3 ∧
      s3.consumers = [c] ∧
      c.received = vs.drop (vs.length - n) ++ ws ∧
      (vs.drop (vs.length - n)).length = min vs.length n := by
  have hpol : s0.policy = .boundedCount n := by
    unfold NewNonBlockingReplayBroadcaster at h0
    split at h0
    · exact absurd h0 (by simp)
    · injection h0 with h0
      rw [← h0]
      rfl
  have hcl0 : s0.closed = false := by
    unfold NewNonBlockingReplayBroadcaster at h0
    split at h0
    · exact absurd h0 (by simp)
    · injection h0 with h0
      rw [← h0]
      rfl
  have hd0 : s0.dispatching = true := by
    unfold NewNonBlockingReplayBroadcaster at h0
    split at h0
    · exact absurd h0 (by simp)
    · injection h0 with h0
      rw [← h0]
      rfl
  have hc0 : s0.consumers = [] := by
    unfold NewNonBlockingReplayBroadcaster at h0
    split at h0
    · exact absurd h0 (by simp)
    · injection h0 with h0
      rw [← h0]
      rfl
  have hh0 : s0.history = [] := by
    unfold NewNonBlockingReplayBroadcaster at h0
    split at h0
    · exact absurd h0 (by simp)
    · injection h0 with h0
      rw [← h0]
      rfl
  have hpost0 : s0.config.postBroadcast = none := by
    unfold NewNonBlockingReplayBroadcaster at h0
    split at h0
    · exact absurd h0 (by simp)
    · injection h0 with h0
      rw [← h0]
      rfl
  obtain ⟨s1, h1, hc1, hcl1, hd1, hpol1, _, hh1⟩ :=
    submitList_no_consumers_fields now vs s0 hcl0 hd0 hc0 hpost0
  obtain ⟨s2, c0, h2, hc2, _, _, hcacc, hcrecv, hcl2, hd2, _, _, _, _⟩ :=
    Register_allAccept_fields s1 now id cfg acc hcl1 (by rw [hc1]; rfl) hacc
  have hfast2 : ∀ c ∈ s2.consumers, ∀ k, c.accepts k = true := by
    intro c hcm k
    rw [hc2, hc1] at hcm
    simp only [List.nil_append, List.mem_singleton] at hcm
    rw [hcm, hcacc]
    exact hacc k
  obtain ⟨s3, h3, _, _, hcons3⟩ := fanout_correctness s2 now ws hcl2 hd2 hfast2
  have hfold : vs.foldl (fun h v => pushHistory s0.policy h now v) s0.history
      = (vs.map fun w => (0, w)).drop (vs.length - n) := by
    rw [hpol, hh0]
    have h' := foldl_push_bounded n now vs [] (by simp)
    simpa using h'
  have hcrecv' : c0.received = vs.drop (vs.length - n) := by
    rw [hcrecv, hpol1, hpol]
    show s1.history.map Prod.snd = _
    rw [hh1, hfold, ← List.map_drop, List.map_map]
    simp
  refine ⟨s1, s2, s3,
    { c0 with offers := c0.offers + ws.length, received := c0.received ++ ws },
    h1, h2, h3, ?_, ?_, ?_⟩
  · rw [hcons3, hc2, hc1]
    rfl
  · show c0.received ++ ws = vs.drop (vs.length - n) ++ ws
    rw [hcrecv']
  · rw [List.length_drop]
    omega

/-- C6 witness: the S5 scenario.  A replay broadcaster with N = 3 given
1,2,3,4,5, then a consumer registers and 6 is submitted: the consumer
receives 3, 4, 5, 6 in that order. -/
theorem replay_correctness_witness :
    (∃ s1 s2 s3 c,
      submitList 0 (initState (α := Nat) (applyOpts []) (.boundedCount 3) 20)
        [1, 2, 3, 4, 5] = some s1 ∧
      Register s1 0 7 ⟨none, false⟩ (fun _ => true) = Except.ok s2 ∧
      submitList 0 s2 [6] = some s3 ∧
      s3.consumers = [c] ∧
      c.received = [1, 2, 3, 4, 5].drop ([1, 2, 3, 4, 5].length - 3) ++ [6] ∧
      ([1, 2, 3, 4, 5].drop ([1, 2, 3, 4, 5].length - 3)).length
        = min [1, 2, 3, 4, 5].length 3) ∧
    [1, 2, 3, 4, 5].drop ([1, 2, 3, 4, 5].length - 3) ++ [6] = [3, 4, 5, 6] := by
  constructor
  · exact replay_correctness 20 3 0 7 ⟨none, false⟩ (fun _ => true) [1, 2, 3, 4, 5] [6]
      (initState (applyOpts []) (.boundedCount 3) 20) rfl fun k => rfl
  · decide

/-- Every entry surviving the purge of a submission-time-ordered history
is unexpired: its expiry instant is strictly later than now. -/
theorem dropWhile_unexpired (now : Nat) (h : List (Nat × α))
    (hs : h.Pairwise fun p q => p.1 ≤ q.1) :
    ∀ p ∈ h.dropWhile fun e => decide (e.1 ≤ now), now < p.1 := by
  induction h with
  | nil => simp
  | cons e t ih =>
    rw [List.pairwise_cons] at hs
    by_cases he : e.1 ≤ now
    · rw [List.dropWhile_cons_of_pos (by simpa using he)]
      exact ih hs.2
    · rw [List.dropWhile_cons_of_neg (by simpa using he)]
      intro p hp
      rcases List.mem_cons.mp hp with rfl | hp'
      · omega
      · have := hs.1 p hp'
        omega

/-- C7: TTL expiry.  Registering at instant `now` on a TTL broadcaster
whose history is ordered by submission time first purges every entry whose
expires-at instant is ≤ now, then replays the surviving entries in
submission order; in particular the entry of a value submitted at t0 with
t0 + D ≤ now (registration at t0 + D + ε, ε > 0) is never replayed. -/
theorem ttl_expiry (s : BState α) (d now t0 id : Nat) (v : α)
    (cfg : ConsumerConfig α) (acc : Nat → Bool)
    (hcl : s.closed = false)
    (hid : (s.consumers.any fun c => c.id == id) = false)
    (hacc : ∀ k, acc k = true)
    (hsorted : s.history.Pairwise fun p q => p.1 ≤ q.1)
    (hexp : t0 + d ≤ now) :
    ∃ s' c, Register s now id cfg acc = Except.ok s' ∧
      s'.consumers = s.consumers ++ [c] ∧
      c.received = (purgeHistory s.policy s.history now).map Prod.snd ∧
      (s.policy = .ttl d →
        (∀ p ∈ purgeHistory s.policy s.history now, now < p.1) ∧
        (t0 + d, v) ∉ purgeHistory s.policy s.history now ∧
        purgeHistory s.policy s.history now <:+ s.history) := by
  refine ⟨_, _, Register_allAccept s now id cfg acc hcl hid hacc, rfl, rfl, ?_⟩
  intro hpol
  have hpurge : purgeHistory s.policy s.history now
      = s.history.dropWhile fun e => decide (e.1 ≤ now) := by
    rw [hpol]
    rfl
  have hall : ∀ p ∈ purgeHistory s.policy s.history now, now < p.1 := by
    rw [hpurge]
    exact dropWhile_unexpired now s.history hsorted
  refine ⟨hall, ?_, ?_⟩
  · intro hmem
    have := hall _ hmem
    omega
  · rw [hpurge]
    exact List.dropWhile_suffix _

/-- Concrete TTL broadcaster state for the S6-style scenario: duration
100, value 10 submitted at instant 0 (expires at 100), value 20 submitted
at instant 50 (expires at 150). -/
def ttlDemoState : BState Nat :=
  { config := { postBroadcast := none, eagerBroadcast := true }
    policy := .ttl 100
    bufferSize := 0
    consumers := []
    history := [(100, 10), (150, 20)]
    dispatching := true
    closed := false
    bpLog := [], closeLog := [], postLog := [] }

/-- C7 witness: registering at instant 120 > 0 + 100 on the TTL-100
history purges the value submitted at instant 0 and replays only the
surviving later entry. -/
theorem ttl_expiry_witness :
    (∃ s' c, Register ttlDemoState 120 7 ⟨none, false⟩ (fun _ => true) = Except.ok s' ∧
      s'.consumers = ttlDemoState.consumers ++ [c] ∧
      c.received = (purgeHistory ttlDemoState.policy ttlDemoState.history 120).map
        Prod.snd ∧
      (ttlDemoState.policy = .ttl 100 →
        (∀ p ∈ purgeHistory ttlDemoState.policy ttlDemoState.history 120, 120 < p.1) ∧
        (0 + 100, 10) ∉ purgeHistory ttlDemoState.policy ttlDemoState.history 120 ∧
        purgeHistory ttlDemoState.policy ttlDemoState.history 120 <:+
          ttlDemoState.history)) ∧
    (purgeHistory ttlDemoState.policy ttlDemoState.history 120).map Prod.snd = [20] := by
  constructor
  · exact ttl_expiry ttlDemoState 100 120 0 7 10 ⟨none, false⟩ (fun _ => true)
      rfl rfl (fun k => rfl) (by simp [ttlDemoState]) (by omega)
  · decide

/-- C8: close idempotence and cleanup.  The first `Close` on an open
broadcaster succeeds, closes every registered consumer's channel exactly
once (each id enters the close log exactly once), and leaves no consumer
registered; a second `Close` returns without error and changes
nothing. -/
theorem close_idempotent (s : BState α)
    (hcl : s.closed = false)
    (hnodup : (s.consumers.map MConsumer.id).Nodup)
    (hfresh : ∀ c ∈ s.consumers, c.id ∉ s.closeLog) :
    ∃ s', Close s = Except.ok s' ∧
      s'.consumers = [] ∧
      s'.closed = true ∧
      (∀ c ∈ s.consumers, s'.closeLog.count c.id = 1) ∧
      Close s' = Except.ok s' := by
  refine ⟨{ s with
            consumers := []
            history := []
            dispatching := false
            closed := true
            closeLog := s.closeLog ++ s.consumers.map MConsumer.id }, ?_, rfl, rfl, ?_, ?_⟩
  · simp [Close, hcl]
  · intro c hcmem
    show (s.closeLog ++ s.consumers.map MConsumer.id).count c.id = 1
    rw [List.count_append,
      List.count_eq_zero_of_not_mem (hfresh c hcmem),
      List.count_eq_one_of_mem hnodup (List.mem_map_of_mem _ hcmem)]
  · simp [Close]

/-- C8 witness: closing the two-consumer demonstration state closes
channels 1 and 2 exactly once each, empties the registry, and a second
close is a no-op without error. -/
theorem close_idempotent_witness :
    (twoFastState.consumers.map MConsumer.id).Nodup ∧
    ∃ s', Close twoFastState = Except.ok s' ∧
      s'.consumers = [] ∧
      s'.closed = true ∧
      (∀ c ∈ twoFastState.consumers, s'.closeLog.count c.id = 1) ∧
      Close s' = Except.ok s' := by
  constructor
  · decide
  · exact close_idempotent twoFastState rfl (by decide) (by simp [twoFastState])

/-- C9: applying the `LazyBroadcast` option produces exactly the same
configuration as calling `EagerBroadcast` with argument `false`, and the
eager flag defaults to `true` when neither option is applied. -/
theorem lazyBroadcast_eq_eagerBroadcast_false :
    (∀ (α : Type) (c : BroadcasterConfig α),
      LazyBroadcast c = c.EagerBroadcast false) ∧
    (∀ (α : Type), (defaultBroadcasterConfig (α := α)).eagerBroadcast = true) :=
  ⟨fun _ _ => rfl, fun _ => rfl⟩

/-- C10: for every callback `f` and consumer configuration `c`, the option
functions returned by `WithOnBackPressure f` and by
`DisconnectOnBackPressure` succeed (nil error) and each modifies only its
own field, leaving the other unchanged; hence registration can never fail
because of these two options. -/
theorem consumer_options_never_fail :
    (∀ (α : Type) (f : α → Unit) (c : ConsumerConfig α),
      ∃ c', WithOnBackPressure f c = Except.ok c' ∧
        c'.onBackpressure = some f ∧
        c'.disconnectOnBackpressure = c.disconnectOnBackpressure) ∧
    (∀ (α : Type) (c : ConsumerConfig α),
      ∃ c', DisconnectOnBackPressure c = Except.ok c' ∧
        c'.disconnectOnBackpressure = true ∧
        c'.onBackpressure = c.onBackpressure) :=
  ⟨fun _ f c => ⟨{ c with onBackpressure := some f }, rfl, rfl, rfl⟩,
   fun _ c => ⟨{ c with disconnectOnBackpressure := true }, rfl, rfl, rfl⟩⟩

end Mux
